import Mathlib

/-!
Verification of the orchestration core of the graph-chat agent
(`agent/agent_builder.py`, `main.py`).

The embedding models:
* the message data model (`langchain` messages, as consumed by the code);
* the five graph nodes of `create_chat_agent` (`runtime_load_node`,
  `delete_tool_message_node`, `summarize_conversation_node`, `llm_call_node`,
  `tool_node`) and the conditional router `should_continue`;
* the `add_messages` / `TypedDict` partial-update merge semantics;
* the compiled graph as a small-step function over configurations, with the
  checkpoint after every step being the configuration itself.

External collaborators (the two model endpoints, the approximate token
counter, the tool bodies) are deterministic oracle parameters, matching the
spec's treatment of them as opaque services.  Fallible Python code
(attribute access, list indexing, dict indexing, raising tools) is embedded
with `Option`: `none` is an uncaught exception.
-/

/-- Arguments of a tool call (`tool_call["args"]`), an opaque JSON-like
payload; the orchestration core never inspects it. -/
abbrev ToolArgs := List (String × String)

/-- A tool-call request attached to an assistant message:
`\x7bname, args, id\x7d` in the Python dict. -/
structure ToolCall where
  name : String
  args : ToolArgs
  id : String
deriving DecidableEq, Repr

/-- A `langchain` message as the orchestration code consumes it.  Only
`AIMessage` carries a `tool_calls` attribute; `ToolMessage` carries a
`tool_call_id`.  Message identity (`m.id`) is modelled as a natural. -/
inductive Msg where
  | human (id : Nat) (content : String)
  | system (id : Nat) (content : String)
  | ai (id : Nat) (content : String) (tool_calls : List ToolCall)
  | tool (id : Nat) (content : String) (tool_call_id : String)
deriving DecidableEq, Repr

/-- The `id` attribute shared by every message class. -/
def Msg.id : Msg → Nat
  | .human i _ => i
  | .system i _ => i
  | .ai i _ _ => i
  | .tool i _ _ => i

/-- The `type` discriminator string of each message class
(`m.type` in Python). -/
def Msg.pyType : Msg → String
  | .human _ _ => "human"
  | .system _ _ => "system"
  | .ai _ _ _ => "ai"
  | .tool _ _ _ => "tool"

/-- `hasattr(m, "tool_calls")`: only `AIMessage` defines the attribute. -/
def Msg.hasToolCallsAttr : Msg → Bool
  | .ai _ _ _ => true
  | _ => false

/-- `m.tool_calls` as a direct attribute access: `none` models the
`AttributeError` raised on message classes without the attribute. -/
def Msg.toolCallsAttr : Msg → Option (List ToolCall)
  | .ai _ _ tcs => some tcs
  | _ => none

/-- `m.tool_call_id` of a `ToolMessage`; `none` on other classes. -/
def Msg.toolCallId : Msg → Option String
  | .tool _ _ cid => some cid
  | _ => none

/-- The graph state `AgentState` of `agent_builder.py`. -/
structure AgentState where
  messages : List Msg
  current_user_id : String
  current_user_name : String
  current_session_id : String
  current_summary : String
deriving DecidableEq, Repr

/-- A node's partial update: the dict a node returns.  The `messages` entry
of the Python dict is a mix of `RemoveMessage`s and genuine messages; the
reducer applies removals (by identity) before appends, so we keep the two
groups apart. -/
structure NodeUpdate where
  removals : List Nat
  appends : List Msg
  user_id : Option String
  user_name : Option String
  session_id : Option String
  summary : Option String
deriving DecidableEq, Repr

/-- The empty partial update (`return dict()`). -/
def NodeUpdate.empty : NodeUpdate :=
  { removals := [], appends := [], user_id := none, user_name := none,
    session_id := none, summary := none }

/-- Merge of a partial update into state: `add_messages` deletes the
messages whose id is named by a `RemoveMessage`, then appends the new
messages in emission order; scalar `TypedDict` fields are overwritten when
present in the update. -/
def applyUpdate (s : AgentState) (u : NodeUpdate) : AgentState :=
  { messages := s.messages.filter (fun m => decide (¬ m.id ∈ u.removals)) ++ u.appends
    current_user_id := u.user_id.getD s.current_user_id
    current_user_name := u.user_name.getD s.current_user_name
    current_session_id := u.session_id.getD s.current_session_id
    current_summary := u.summary.getD s.current_summary }

/-- Python `str.split("-")` on the character list of the string: splits at
every dash, keeping empty components. -/
def splitOnDash : List Char → List (List Char)
  | [] => [[]]
  | c :: rest =>
    match splitOnDash rest with
    | [] => [[]]
    | h :: t => if c = '-' then [] :: h :: t else (c :: h) :: t

/-- `thread_id.split("-")` lifted back to strings. -/
def pySplitDash (s : String) : List String :=
  (splitOnDash s.data).map (fun l => String.mk l)

/-- `runtime_load_node`: splits the configured thread id on `-`, stores the
first component as user id (with the display-name prefix), the second as
session id, and resets the summary to the empty string.  `none` models the
`IndexError` when the split yields fewer than two components. -/
def runtime_load_node (thread_id : String) : Option NodeUpdate :=
  match pySplitDash thread_id with
  | u :: s :: _ =>
    some { NodeUpdate.empty with
           user_id := some u
           user_name := some ("用户" ++ u)
           session_id := some s
           summary := some "" }
  | _ => none

/-- The removal predicate of `delete_tool_message_node`:
`m.type == "tool" or (hasattr(m, "tool_calls") and m.tool_calls)`. -/
def deleteToolPred (m : Msg) : Bool :=
  m.pyType == "tool" || (m.hasToolCallsAttr && !(m.toolCallsAttr.getD []).isEmpty)

/-- `delete_tool_message_node`: emits a `RemoveMessage` for every message
matching `deleteToolPred`. -/
def delete_tool_message_node (s : AgentState) : NodeUpdate :=
  { NodeUpdate.empty with
    removals := (s.messages.filter deleteToolPred).map Msg.id }

/-- An assistant response produced by a model endpoint: content plus the
requested tool calls. -/
structure GenOut where
  content : String
  tool_calls : List ToolCall
deriving DecidableEq, Repr

/-- The summarization instruction chosen by `summarize_conversation_node`:
the extend variant when a summary already exists, the create-fresh variant
otherwise. -/
def summaryInstruction (summary : String) : String :=
  if summary ≠ "" then
    "This is a summary of the conversation to date: " ++ summary ++
      "\n\nExtend the summary by taking into account the new messages above:"
  else
    "Create a summary of the conversation above:"

/-- `summarize_conversation_node`: below the 128,000-token threshold it
returns the empty dict; at or above it, it sends the history plus the
instruction to the summarization endpoint `sumGen` (the `qwen3_8b` call),
stores the response content as the new summary, and emits removals for all
but the two most recent messages (`state["messages"][:-2]`). -/
def summarize_conversation_node (countTokens : List Msg → Nat)
    (sumGen : List Msg → GenOut) (s : AgentState) : NodeUpdate :=
  if countTokens s.messages < 128 * 1000 then NodeUpdate.empty
  else
    let prompt := s.messages ++ [Msg.human 0 (summaryInstruction s.current_summary)]
    let response := sumGen prompt
    { NodeUpdate.empty with
      summary := some response.content
      removals := (s.messages.take (s.messages.length - 2)).map Msg.id }

/-- Modelled from the spec: `agent.prompt.SystemPrompt` (module
`agent/prompt.py` is not part of the provided sources), the fixed system
instruction prepended to every generation prompt.  Its text is opaque to
the orchestration core. -/
def SystemPromptMsg : Msg := Msg.system 0 "system instruction"

/-- The system note embedding the current summary, added to the prompt only
when the summary is non-empty. -/
def summaryNote (summary : String) : Msg :=
  Msg.system 0 ("因对话超过模型上下文，因此做了一次摘要总结，以下是对话历史的摘要，请作为已知事实使用，而不是逐字复述: " ++ summary)

/-- `llm_call_node`: assembles the prompt (system instruction, optional
summary note, full message sequence), calls the tool-enabled endpoint
`chatGen` (`qwen3_8b_with_tools`), and appends the single resulting
assistant message; `freshId` is the identity the checkpointer assigns it. -/
def llm_call_node (chatGen : List Msg → GenOut) (freshId : Nat)
    (s : AgentState) : NodeUpdate :=
  let basic :=
    if s.current_summary ≠ "" then [SystemPromptMsg, summaryNote s.current_summary]
    else [SystemPromptMsg]
  let out := chatGen (basic ++ s.messages)
  { NodeUpdate.empty with appends := [Msg.ai freshId out.content out.tool_calls] }

/-- The registered tool names, in the order of
`tool_map = \x7b**time_tool_map, **math_tool_map\x7d`. -/
def tool_map_names : List String :=
  ["now_utc", "now_local", "parse_datetime", "add_seconds", "add_minutes",
   "add_hours", "add_days", "diff_seconds", "diff_minutes", "diff_hours",
   "add", "subtract", "multiply", "divide", "power", "sqrt", "abs_val",
   "max_val", "min_val", "average"]

/-- The loop body of `tool_node` over the requested calls: `none` models the
`KeyError` of `tool_map[name]` on an unregistered name, or an exception
escaping `tool.ainvoke` (neither is caught by the node).  On success it
yields the `(observation, call_id)` pairs in request order. -/
def runToolCalls (invoke : String → ToolArgs → Except Unit String) :
    List ToolCall → Option (List (String × String))
  | [] => some []
  | c :: rest =>
    if tool_map_names.contains c.name then
      match invoke c.name c.args with
      | Except.ok obs =>
        match runToolCalls invoke rest with
        | some r => some ((obs, c.id) :: r)
        | none => none
      | Except.error _ => none
    else none

/-- `tool_node`: iterates over `state["messages"][-1].tool_calls`, invoking
each named tool and appending one `ToolMessage` per call with the
originating `call_id`.  `none` models the uncaught exceptions: empty
message list, a last message without the `tool_calls` attribute, an
unregistered tool name, or a raising tool. -/
def tool_node (invoke : String → ToolArgs → Except Unit String)
    (freshId : Nat) (s : AgentState) : Option NodeUpdate :=
  match s.messages.getLast? with
  | none => none
  | some last =>
    match last.toolCallsAttr with
    | none => none
    | some tcs =>
      match runToolCalls invoke tcs with
      | none => none
      | some results =>
        some { NodeUpdate.empty with
               appends := results.enum.map
                 (fun p => Msg.tool (freshId + p.1) p.2.1 p.2.2) }

/-- The two targets of the conditional edge out of `llm_call_node`. -/
inductive RouteTarget where
  | tool_node
  | END
deriving DecidableEq, Repr

/-- `should_continue`: reads `messages[-1].tool_calls` and routes to the
tool node exactly when the list is non-empty.  `none` models the uncaught
exceptions: `IndexError` on an empty sequence, `AttributeError` on a last
message without the attribute. -/
def should_continue (msgs : List Msg) : Option RouteTarget :=
  match msgs.getLast? with
  | none => none
  | some last =>
    match last.toolCallsAttr with
    | none => none
    | some tcs => some (if tcs.isEmpty then RouteTarget.END else RouteTarget.tool_node)

/-- The step graph's control locations, one per node of `create_chat_agent`
plus the two terminal outcomes: `done` models reaching `END`, `error` an
uncaught exception aborting the turn. -/
inductive Phase where
  | load
  | prune
  | compact
  | generate
  | route
  | invoke
  | done
  | error
deriving DecidableEq, Repr

/-- A configuration of the engine: the control location, the merged state, and
the next fresh message identity the checkpointer will assign.  A checkpoint
written after a step is exactly such a configuration. -/
structure Config where
  phase : Phase
  state : AgentState
  nextId : Nat
deriving DecidableEq, Repr

/-- The deterministic environment of one turn: the configured thread id and
the external collaborators (approximate token counter, the two model
endpoints, the tool bodies), all fixed functions — the deterministic
Model Gateway stub of the spec. -/
structure Env where
  thread_id : String
  countTokens : List Msg → Nat
  chatGen : List Msg → GenOut
  sumGen : List Msg → GenOut
  invoke : String → ToolArgs → Except Unit String

/-- One engine step: runs the node at the current control location, merges
its partial update, and moves along the graph's edges
(`runtime_load_node → delete_tool_message_node → summarize_conversation_node
→ llm_call_node → should_continue → tool_node/END`, with the tool node
looping back to the model call).  `done` and `error` are absorbing. -/
def step (env : Env) (c : Config) : Config :=
  match c.phase with
  | .load =>
    match runtime_load_node env.thread_id with
    | none => { c with phase := .error }
    | some u => { c with phase := .prune, state := applyUpdate c.state u }
  | .prune =>
    { c with phase := .compact
             state := applyUpdate c.state (delete_tool_message_node c.state) }
  | .compact =>
    { c with phase := .generate
             state := applyUpdate c.state
               (summarize_conversation_node env.countTokens env.sumGen c.state) }
  | .generate =>
    { c with phase := .route
             state := applyUpdate c.state (llm_call_node env.chatGen c.nextId c.state)
             nextId := c.nextId + 1 }
  | .route =>
    match should_continue c.state.messages with
    | none => { c with phase := .error }
    | some RouteTarget.tool_node => { c with phase := .invoke }
    | some RouteTarget.END => { c with phase := .done }
  | .invoke =>
    match tool_node env.invoke c.nextId c.state with
    | none => { c with phase := .error }
    | some u =>
      { c with phase := .generate
               state := applyUpdate c.state u
               nextId := c.nextId + u.appends.length }
  | .done => c
  | .error => c

/-- The initial configuration of a turn: the engine enters at the
`runtime_load_node`, with the incoming user message already merged into the
checkpointed history. -/
def initConfig (msgs : List Msg) (nextId : Nat) : Config :=
  { phase := .load
    state := { messages := msgs, current_user_id := "", current_user_name := "",
               current_session_id := "", current_summary := "" }
    nextId := nextId }

theorem applyUpdate_empty (s : AgentState) : applyUpdate s NodeUpdate.empty = s := by
  cases s with
  | mk msgs uid uname sid summ =>
    simp [applyUpdate, NodeUpdate.empty]

/-- C5: when the approximate token count of the message sequence is below the
128,000-token threshold, `summarize_conversation_node` emits no changes, and
merging its (empty) update leaves the message sequence, the summary and the
identity fields unchanged. -/
theorem compaction_noop_below_threshold (countTokens : List Msg → Nat)
    (sumGen : List Msg → GenOut) (s : AgentState)
    (h : countTokens s.messages < 128 * 1000) :
    summarize_conversation_node countTokens sumGen s = NodeUpdate.empty ∧
    applyUpdate s (summarize_conversation_node countTokens sumGen s) = s := by
  have h1 : summarize_conversation_node countTokens sumGen s = NodeUpdate.empty := by
    unfold summarize_conversation_node
    simp [h]
  exact ⟨h1, by rw [h1]; exact applyUpdate_empty s⟩

/-- Concrete token counter for witnesses: every history counts zero tokens. -/
def zeroTokens : List Msg → Nat := fun _ => 0

/-- Concrete summarization endpoint stub for witnesses. -/
def sumGenW : List Msg → GenOut := fun _ => { content := "sum", tool_calls := [] }

/-- Concrete conversation state for witnesses. -/
def stW : AgentState :=
  { messages := [Msg.human 1 "hi", Msg.ai 2 "hello" []]
    current_user_id := "u", current_user_name := "用户u"
    current_session_id := "s", current_summary := "" }

theorem compaction_noop_below_threshold_witness :
    zeroTokens stW.messages < 128 * 1000 ∧
    (summarize_conversation_node zeroTokens sumGenW stW = NodeUpdate.empty ∧
     applyUpdate stW (summarize_conversation_node zeroTokens sumGenW stW) = stW) :=
  ⟨by decide, compaction_noop_below_threshold zeroTokens sumGenW stW (by decide)⟩

/-- The pruner as a state transformer: emit the removals and merge them. -/
def pruneStep (s : AgentState) : AgentState :=
  applyUpdate s (delete_tool_message_node s)

theorem applyUpdate_no_changes (s : AgentState) (u : NodeUpdate)
    (hr : u.removals = []) (ha : u.appends = []) (h1 : u.user_id = none)
    (h2 : u.user_name = none) (h3 : u.session_id = none) (h4 : u.summary = none) :
    applyUpdate s u = s := by
  cases s with
  | mk msgs uid uname sid summ => simp [applyUpdate, hr, ha, h1, h2, h3, h4]

theorem pruneStep_no_match_left (s : AgentState) :
    (pruneStep s).messages.filter deleteToolPred = [] := by
  rw [List.filter_eq_nil_iff]
  intro m hm
  have hmsg : (pruneStep s).messages = s.messages.filter
      (fun x => decide (¬ x.id ∈ (s.messages.filter deleteToolPred).map Msg.id)) := by
    simp [pruneStep, applyUpdate, delete_tool_message_node, NodeUpdate.empty]
  rw [hmsg, List.mem_filter] at hm
  obtain ⟨hmem, hid⟩ := hm
  intro hpred
  have hin : m.id ∈ (s.messages.filter deleteToolPred).map Msg.id :=
    List.mem_map.mpr ⟨m, List.mem_filter.mpr ⟨hmem, hpred⟩, rfl⟩
  simp [hin] at hid

/-- C6: `delete_tool_message_node` emits a removal directive exactly for the
messages matching its predicate; that predicate holds exactly of tool-result
messages and assistant messages carrying tool-call requests; and pruning is
idempotent: a second run with no new messages leaves the message set of the
first run unchanged. -/
theorem prune_exact_and_idempotent (s : AgentState) :
    (delete_tool_message_node s).removals
        = (s.messages.filter deleteToolPred).map Msg.id ∧
    (∀ m : Msg, deleteToolPred m = true ↔
      (m.pyType = "tool" ∨ ∃ i ct tcs, m = Msg.ai i ct tcs ∧ tcs ≠ [])) ∧
    pruneStep (pruneStep s) = pruneStep s := by
  refine ⟨rfl, ?_, ?_⟩
  · intro m
    cases m with
    | human i ct => simp [deleteToolPred, Msg.pyType, Msg.hasToolCallsAttr]
    | system i ct => simp [deleteToolPred, Msg.pyType, Msg.hasToolCallsAttr]
    | ai i ct tcs =>
      have hred : deleteToolPred (Msg.ai i ct tcs) = !tcs.isEmpty := by
        simp [deleteToolPred, Msg.pyType, Msg.hasToolCallsAttr, Msg.toolCallsAttr]
      rw [hred]
      constructor
      · intro h
        refine Or.inr ⟨i, ct, tcs, rfl, ?_⟩
        intro he
        subst he
        simp at h
      · intro h
        rcases h with h | ⟨i', ct', tcs', heq, hne⟩
        · exact absurd h (by simp [Msg.pyType])
        · injection heq with h1 h2 h3
          subst h3
          cases tcs with
          | nil => exact absurd rfl hne
          | cons a l => rfl
    | tool i ct cid => simp [deleteToolPred, Msg.pyType]
  · have hnil : (delete_tool_message_node (pruneStep s)).removals = [] := by
      simp [delete_tool_message_node, pruneStep_no_match_left s]
    exact applyUpdate_no_changes (pruneStep s) (delete_tool_message_node (pruneStep s))
      hnil rfl rfl rfl rfl rfl

theorem filter_not_mem_take_map_id (l : List Msg) (hnd : (l.map Msg.id).Nodup) (k : Nat) :
    l.filter (fun m => decide (¬ m.id ∈ (l.take k).map Msg.id)) = l.drop k := by
  induction l generalizing k with
  | nil => simp
  | cons m rest ih =>
    cases k with
    | zero => simp
    | succ j =>
      have hnd' : (rest.map Msg.id).Nodup := (List.nodup_cons.mp hnd).2
      have hhead : Msg.id m ∉ rest.map Msg.id := (List.nodup_cons.mp hnd).1
      have hm : (decide (¬ m.id ∈ ((m :: rest).take (j + 1)).map Msg.id)) = false := by
        simp [List.take_succ_cons]
      rw [List.drop_succ_cons, ← ih hnd' j]
      rw [List.filter_cons_of_neg (by simp [hm])]
      apply List.filter_congr
      intro x hx
      have hxid : x.id ≠ m.id := by
        intro he
        exact hhead (he ▸ List.mem_map.mpr ⟨x, hx, rfl⟩)
      simp [List.take_succ_cons, hxid]

/-- C4: when the approximate token count is at or above the 128,000-token
threshold, `summarize_conversation_node` sets the summary to the
summarization response's content and emits removal directives for every
message except the two most recent; after the merge exactly the last 2
messages remain and (for a summarizer returning non-empty text) the new
summary is non-empty. -/
theorem compaction_above_threshold (countTokens : List Msg → Nat)
    (sumGen : List Msg → GenOut) (s : AgentState)
    (hthr : 128 * 1000 ≤ countTokens s.messages)
    (hlen : 2 ≤ s.messages.length)
    (hnd : (s.messages.map Msg.id).Nodup)
    (hresp : (sumGen (s.messages ++
        [Msg.human 0 (summaryInstruction s.current_summary)])).content ≠ "") :
    (summarize_conversation_node countTokens sumGen s).removals
        = (s.messages.take (s.messages.length - 2)).map Msg.id ∧
    (applyUpdate s (summarize_conversation_node countTokens sumGen s)).messages
        = s.messages.drop (s.messages.length - 2) ∧
    (applyUpdate s (summarize_conversation_node countTokens sumGen s)).messages.length = 2 ∧
    (applyUpdate s (summarize_conversation_node countTokens sumGen s)).current_summary
        = (sumGen (s.messages ++
            [Msg.human 0 (summaryInstruction s.current_summary)])).content ∧
    (applyUpdate s (summarize_conversation_node countTokens sumGen s)).current_summary ≠ "" := by
  have hnl : ¬ countTokens s.messages < 128 * 1000 := not_lt.mpr hthr
  have hu : summarize_conversation_node countTokens sumGen s =
      { NodeUpdate.empty with
        summary := some (sumGen (s.messages ++
          [Msg.human 0 (summaryInstruction s.current_summary)])).content
        removals := (s.messages.take (s.messages.length - 2)).map Msg.id } := by
    unfold summarize_conversation_node
    simp [hnl]
  rw [hu]
  refine ⟨rfl, ?_, ?_, rfl, hresp⟩
  · simp only [applyUpdate, NodeUpdate.empty, List.append_nil]
    exact filter_not_mem_take_map_id s.messages hnd (s.messages.length - 2)
  · simp only [applyUpdate, NodeUpdate.empty, List.append_nil]
    rw [filter_not_mem_take_map_id s.messages hnd (s.messages.length - 2)]
    rw [List.length_drop]
    omega

/-- Concrete token counter at the threshold, for the compaction witness. -/
def bigTokens : List Msg → Nat := fun _ => 128 * 1000

/-- Concrete three-message state for the compaction witness. -/
def stBig : AgentState :=
  { messages := [Msg.human 1 "a", Msg.ai 2 "b" [], Msg.human 3 "c"]
    current_user_id := "u", current_user_name := "用户u"
    current_session_id := "s", current_summary := "" }

theorem compaction_above_threshold_witness :
    (128 * 1000 ≤ bigTokens stBig.messages ∧ 2 ≤ stBig.messages.length ∧
     (stBig.messages.map Msg.id).Nodup ∧
     (sumGenW (stBig.messages ++
        [Msg.human 0 (summaryInstruction stBig.current_summary)])).content ≠ "") ∧
    ((summarize_conversation_node bigTokens sumGenW stBig).removals
        = (stBig.messages.take (stBig.messages.length - 2)).map Msg.id ∧
     (applyUpdate stBig (summarize_conversation_node bigTokens sumGenW stBig)).messages
        = stBig.messages.drop (stBig.messages.length - 2) ∧
     (applyUpdate stBig (summarize_conversation_node bigTokens sumGenW stBig)).messages.length = 2 ∧
     (applyUpdate stBig (summarize_conversation_node bigTokens sumGenW stBig)).current_summary
        = (sumGenW (stBig.messages ++
            [Msg.human 0 (summaryInstruction stBig.current_summary)])).content ∧
     (applyUpdate stBig (summarize_conversation_node bigTokens sumGenW stBig)).current_summary ≠ "") :=
  ⟨⟨by decide, by decide, by decide, by decide⟩,
   compaction_above_threshold bigTokens sumGenW stBig
     (by decide) (by decide) (by decide) (by decide)⟩

/-- C3 counterexample: on a last message without the `tool_calls` attribute
(here a user message), `should_continue` raises `AttributeError` (modelled
as `none`) instead of selecting termination, so the route step does not
"always select termination" when the tool-call list is absent. -/
theorem router_absent_attr_counterexample :
    (Msg.human 0 "hi").toolCallsAttr = none ∧
    should_continue [Msg.human 0 "hi"] ≠ some RouteTarget.END ∧
    should_continue [Msg.human 0 "hi"] = none := by
  refine ⟨rfl, ?_, rfl⟩
  intro h
  simp [should_continue, Msg.toolCallsAttr] at h

/-- C3 (amended): the route decision is a pure, deterministic function of
the most recent message; a last assistant message with a non-empty tool-call
list always selects tool execution and one with an empty list always selects
termination; in the engine the route step mutates neither the state nor the
fresh-identity counter.  (On a last message without the `tool_calls`
attribute the access faults instead of terminating; see the
counterexample.) -/
theorem router_pure_deterministic (env : Env) (msgs msgs' : List Msg) (c : Config)
    (hlast : msgs.getLast? = msgs'.getLast?) (hc : c.phase = Phase.route) :
    should_continue msgs = should_continue msgs' ∧
    (∀ i ct tcs, msgs.getLast? = some (Msg.ai i ct tcs) → tcs ≠ [] →
      should_continue msgs = some RouteTarget.tool_node) ∧
    (∀ i ct, msgs.getLast? = some (Msg.ai i ct []) →
      should_continue msgs = some RouteTarget.END) ∧
    (step env c).state = c.state ∧ (step env c).nextId = c.nextId := by
  refine ⟨?_, ?_, ?_, ?_⟩
  · unfold should_continue
    rw [hlast]
  · intro i ct tcs hl hne
    unfold should_continue
    rw [hl]
    cases tcs with
    | nil => exact absurd rfl hne
    | cons a l => rfl
  · intro i ct hl
    unfold should_continue
    rw [hl]
    rfl
  · obtain ⟨ph, st, nid⟩ := c
    cases hc
    show (step env ⟨Phase.route, st, nid⟩).state = st ∧
      (step env ⟨Phase.route, st, nid⟩).nextId = nid
    unfold step
    cases should_continue st.messages with
    | none => exact ⟨rfl, rfl⟩
    | some r => cases r with
      | tool_node => exact ⟨rfl, rfl⟩
      | END => exact ⟨rfl, rfl⟩

/-- Concrete tool behaviour for witnesses: every invocation succeeds. -/
def okInvoke : String → ToolArgs → Except Unit String := fun _ _ => Except.ok "ok"

/-- Concrete chat endpoint for witnesses: always a plain final answer. -/
def chatGenW : List Msg → GenOut := fun _ => { content := "hello", tool_calls := [] }

/-- Concrete deterministic environment for witnesses: thread `u-s`,
zero-token counter, tool-free chat responses. -/
def envW : Env :=
  { thread_id := "u-s", countTokens := zeroTokens, chatGen := chatGenW,
    sumGen := sumGenW, invoke := okInvoke }

theorem router_pure_deterministic_witness :
    should_continue [Msg.ai 3 "x" [{ name := "add", args := [], id := "c1" }]]
      = some RouteTarget.tool_node ∧
    should_continue [Msg.ai 3 "y" []] = some RouteTarget.END ∧
    (step envW { phase := Phase.route, state := stW, nextId := 9 }).state = stW :=
  ⟨(router_pure_deterministic envW
      [Msg.ai 3 "x" [{ name := "add", args := [], id := "c1" }]]
      [Msg.ai 3 "x" [{ name := "add", args := [], id := "c1" }]]
      { phase := Phase.route, state := stW, nextId := 9 } rfl rfl).2.1
      3 "x" [{ name := "add", args := [], id := "c1" }] rfl (by decide),
   (router_pure_deterministic envW [Msg.ai 3 "y" []] [Msg.ai 3 "y" []]
      { phase := Phase.route, state := stW, nextId := 9 } rfl rfl).2.2.1
      3 "y" rfl,
   (router_pure_deterministic envW [Msg.ai 3 "y" []] [Msg.ai 3 "y" []]
      { phase := Phase.route, state := stW, nextId := 9 } rfl rfl).2.2.2.1⟩

theorem splitOnDash_ne_nil (l : List Char) : splitOnDash l ≠ [] := by
  cases l with
  | nil => simp [splitOnDash]
  | cons c rest =>
    unfold splitOnDash
    cases h : splitOnDash rest with
    | nil => simp
    | cons a t =>
      by_cases hc : c = '-' <;> simp [hc]

theorem splitOnDash_no_dash (u : List Char) (h : ¬ '-' ∈ u) : splitOnDash u = [u] := by
  induction u with
  | nil => rfl
  | cons c cs ih =>
    have hc : ¬ c = '-' := fun he => h (he ▸ List.mem_cons_self c cs)
    have hcs : ¬ '-' ∈ cs := fun hm => h (List.mem_cons_of_mem c hm)
    unfold splitOnDash
    rw [ih hcs]
    simp [hc]

theorem splitOnDash_append_no_dash (u : List Char) (hu : ¬ '-' ∈ u) :
    ∀ (l h : List Char) (t : List (List Char)),
      splitOnDash l = h :: t → splitOnDash (u ++ l) = (u ++ h) :: t := by
  induction u with
  | nil => intro l h t hl; simpa using hl
  | cons c cs ih =>
    intro l h t hl
    have hc : ¬ c = '-' := fun he => hu (he ▸ List.mem_cons_self c cs)
    have hcs : ¬ '-' ∈ cs := fun hm => hu (List.mem_cons_of_mem c hm)
    show splitOnDash (c :: (cs ++ l)) = (c :: (cs ++ h)) :: t
    unfold splitOnDash
    rw [ih hcs l h t hl]
    simp [hc]

theorem splitOnDash_format (u v : List Char) (hu : ¬ '-' ∈ u) (hv : ¬ '-' ∈ v) :
    splitOnDash (u ++ '-' :: v) = [u, v] := by
  have h1 : splitOnDash ('-' :: v) = [] :: [v] := by
    unfold splitOnDash
    rw [splitOnDash_no_dash v hv]
    simp
  have h2 := splitOnDash_append_no_dash u hu ('-' :: v) [] [v] h1
  simpa using h2

theorem format_thread_data (A B : String) :
    (A ++ "-" ++ B).data = A.data ++ '-' :: B.data := by
  rw [String.data_append, String.data_append]
  have hdash : "-".data = ['-'] := rfl
  rw [hdash, List.append_assoc]
  rfl

/-- C7: for every thread identifier of the form `A-B` with non-empty,
dash-free components, `runtime_load_node` recovers the user id `A` (with its
derived display name) and the session id `B` and resets the summary; and on
that domain the format-then-parse round trip is unambiguous: no two distinct
(user, session) pairs share a thread identifier. -/
theorem thread_id_roundtrip (A B : String)
    (hA : A ≠ "") (hB : B ≠ "") (hdA : ¬ '-' ∈ A.data) (hdB : ¬ '-' ∈ B.data) :
    runtime_load_node (A ++ "-" ++ B) =
      some { NodeUpdate.empty with
             user_id := some A, user_name := some ("用户" ++ A),
             session_id := some B, summary := some "" } ∧
    (∀ A' B' : String, ¬ '-' ∈ A'.data → ¬ '-' ∈ B'.data →
      A ++ "-" ++ B = A' ++ "-" ++ B' → A = A' ∧ B = B') := by
  have hsplit : pySplitDash (A ++ "-" ++ B) = [A, B] := by
    unfold pySplitDash
    rw [format_thread_data, splitOnDash_format A.data B.data hdA hdB]
    simp
  constructor
  · unfold runtime_load_node
    rw [hsplit]
  · intro A' B' hdA' hdB' heq
    have h1 : A.data ++ '-' :: B.data = A'.data ++ '-' :: B'.data := by
      rw [← format_thread_data, ← format_thread_data, heq]
    have h2 : ([A.data, B.data] : List (List Char)) = [A'.data, B'.data] := by
      rw [← splitOnDash_format A.data B.data hdA hdB,
        ← splitOnDash_format A'.data B'.data hdA' hdB', h1]
    have hAd : A.data = A'.data := by injection h2
    have hBd : B.data = B'.data := by
      have := (List.cons.injEq _ _ _ _).mp h2
      injection this.2
    exact ⟨String.ext hAd, String.ext hBd⟩

theorem thread_id_roundtrip_witness :
    runtime_load_node ("alice" ++ "-" ++ "42") =
      some { NodeUpdate.empty with
             user_id := some "alice", user_name := some ("用户" ++ "alice"),
             session_id := some "42", summary := some "" } :=
  (thread_id_roundtrip "alice" "42" (by decide) (by decide)
    (by decide) (by decide)).1

/-- The outcome of the `/stream_chat` handler's input validation. -/
inductive ChatOutcome where
  | rejected (err : String)
  | accepted (thread_id : String)
deriving DecidableEq, Repr

/-- The validation of the `chat` handler in `main.py`: a missing or empty
`x-user` or `x-sess` header is rejected with `invalid user`, an empty form
message with `invalid message`; otherwise the turn starts streaming with the
thread identifier formed by joining the two headers with a dash. -/
def chat_validate (user_id sess_id : Option String) (message : String) : ChatOutcome :=
  if user_id.getD "" = "" ∨ sess_id.getD "" = "" then ChatOutcome.rejected "invalid user"
  else if message = "" then ChatOutcome.rejected "invalid message"
  else ChatOutcome.accepted (user_id.getD "" ++ "-" ++ sess_id.getD "")

/-- C8 counterexample: a session identifier containing the delimiter (as
the uuid session ids of `create_session` do) yields a thread identifier
that does not parse into exactly two components, yet the turn is accepted
and the engine steps run — no `InvalidThreadId` rejection exists. -/
theorem malformed_thread_id_not_rejected :
    chat_validate (some "u") (some "a-b") "hi" = ChatOutcome.accepted "u-a-b" ∧
    (pySplitDash "u-a-b").length ≠ 2 ∧
    (step { envW with thread_id := "u-a-b" }
      (initConfig [Msg.human 1 "hi"] 2)).phase = Phase.prune := by
  refine ⟨by decide, by decide, by decide⟩

theorem splitOnDash_length_ge_two (l : List Char) (h : '-' ∈ l) :
    2 ≤ (splitOnDash l).length := by
  induction l with
  | nil => cases h
  | cons c rest ih =>
    unfold splitOnDash
    cases hs : splitOnDash rest with
    | nil => exact absurd hs (splitOnDash_ne_nil rest)
    | cons a t =>
      by_cases hc : c = '-'
      · simp [hc]
      · have hrest : '-' ∈ rest := by
          cases List.mem_cons.mp h with
          | inl he => exact absurd he.symm hc
          | inr hm => exact hm
        have := ih hrest
        rw [hs] at this
        simp only [List.length_cons] at this
        simp [hc, Nat.succ_le_succ_iff]
        omega

/-- C8 (amended): the handler rejects a turn before any engine step runs
exactly when the user id, the session id, or the incoming message is empty
or missing (there is no dedicated `InvalidThreadId` error); an accepted turn
always carries the dash-joined thread identifier, which splits into at least
two components — but identifiers with an embedded delimiter, which do not
parse into exactly two components, are not rejected. -/
theorem chat_validation_amended (user_id sess_id : Option String) (message : String) :
    ((∃ t, chat_validate user_id sess_id message = ChatOutcome.accepted t) ↔
      (user_id.getD "" ≠ "" ∧ sess_id.getD "" ≠ "" ∧ message ≠ "")) ∧
    (∀ t, chat_validate user_id sess_id message = ChatOutcome.accepted t →
      t = user_id.getD "" ++ "-" ++ sess_id.getD "" ∧ 2 ≤ (pySplitDash t).length) := by
  constructor
  · constructor
    · rintro ⟨t, ht⟩
      unfold chat_validate at ht
      by_cases h1 : user_id.getD "" = "" ∨ sess_id.getD "" = ""
      · simp [h1] at ht
      · by_cases h2 : message = ""
        · simp [h1, h2] at ht
        · push_neg at h1
          exact ⟨h1.1, h1.2, h2⟩
    · rintro ⟨h1, h2, h3⟩
      refine ⟨user_id.getD "" ++ "-" ++ sess_id.getD "", ?_⟩
      unfold chat_validate
      simp [h1, h2, h3]
  · intro t ht
    unfold chat_validate at ht
    by_cases h1 : user_id.getD "" = "" ∨ sess_id.getD "" = ""
    · simp [h1] at ht
    · by_cases h2 : message = ""
      · simp [h1, h2] at ht
      · simp [h1, h2] at ht
        refine ⟨ht.symm, ?_⟩
        subst ht
        unfold pySplitDash
        rw [List.length_map]
        apply splitOnDash_length_ge_two
        rw [format_thread_data]
        exact List.mem_append_right _ (List.mem_cons_self _ _)

theorem chat_validation_amended_witness :
    ("u-s1" : String) = (some "u" : Option String).getD "" ++ "-" ++
      (some "s1" : Option String).getD "" ∧
    2 ≤ (pySplitDash "u-s1").length :=
  (chat_validation_amended (some "u") (some "s1") "hello").2 "u-s1" (by decide)

/-- C2 counterexample: a tool call naming a tool absent from the registry
makes `tool_node` raise `KeyError` (modelled as `none`) — no
error-indicating tool-result message is appended and the engine moves to the
aborted-turn phase — contradicting the claimed conversion of lookup failures
into tool-result messages. -/
theorem tool_unknown_aborts_counterexample :
    tool_node okInvoke 7
      { messages := [Msg.ai 1 "" [{ name := "no_such_tool", args := [], id := "call1" }]]
        current_user_id := "u", current_user_name := "用户u"
        current_session_id := "s", current_summary := "" } = none ∧
    (step envW
      { phase := Phase.invoke
        state := { messages := [Msg.ai 1 "" [{ name := "no_such_tool", args := [], id := "call1" }]]
                   current_user_id := "u", current_user_name := "用户u"
                   current_session_id := "s", current_summary := "" }
        nextId := 7 }).phase = Phase.error := by
  refine ⟨by decide, by decide⟩

theorem runToolCalls_ok (invoke : String → ToolArgs → Except Unit String)
    (tcs : List ToolCall)
    (hreg : ∀ tc ∈ tcs, tc.name ∈ tool_map_names)
    (hok : ∀ tc ∈ tcs, ∃ obs, invoke tc.name tc.args = Except.ok obs) :
    ∃ rs, runToolCalls invoke tcs = some rs ∧
      rs.map Prod.snd = tcs.map ToolCall.id := by
  induction tcs with
  | nil => exact ⟨[], rfl, rfl⟩
  | cons c rest ih =>
    obtain ⟨rs, hrs, hmap⟩ := ih
      (fun tc h => hreg tc (List.mem_cons_of_mem c h))
      (fun tc h => hok tc (List.mem_cons_of_mem c h))
    obtain ⟨obs, hobs⟩ := hok c (List.mem_cons_self c rest)
    have hc : tool_map_names.contains c.name = true := by
      have := hreg c (List.mem_cons_self c rest)
      exact List.elem_eq_true_of_mem this
    refine ⟨(obs, c.id) :: rs, ?_, ?_⟩
    · unfold runToolCalls
      rw [hc]
      simp only [if_true]
      rw [hobs, hrs]
    · simp [hmap]

/-- C2 (amended): after the invoke-tool step, for every tool-call request on
the latest assistant message whose named tool is present in the registry and
whose invocation succeeds, exactly one tool-result message with the
request's `call_id` is appended, in request order; an unregistered name or a
raising tool instead aborts the step with an uncaught exception (see the
counterexample) — no error-indicating tool-result is produced. -/
theorem tool_result_join_integrity (invoke : String → ToolArgs → Except Unit String)
    (freshId : Nat) (s : AgentState) (i : Nat) (ct : String) (tcs : List ToolCall)
    (hlast : s.messages.getLast? = some (Msg.ai i ct tcs))
    (hreg : ∀ tc ∈ tcs, tc.name ∈ tool_map_names)
    (hok : ∀ tc ∈ tcs, ∃ obs, invoke tc.name tc.args = Except.ok obs)
    (hnd : (tcs.map ToolCall.id).Nodup) :
    ∃ u, tool_node invoke freshId s = some u ∧
      u.appends.map Msg.toolCallId = tcs.map (fun tc => some tc.id) ∧
      (∀ m ∈ u.appends, m.pyType = "tool") ∧
      (∀ tc ∈ tcs,
        (u.appends.filter (fun m => m.toolCallId == some tc.id)).length = 1) := by
  obtain ⟨rs, hrs, hmap⟩ := runToolCalls_ok invoke tcs hreg hok
  have hnode : tool_node invoke freshId s =
      some { NodeUpdate.empty with
             appends := rs.enum.map (fun p => Msg.tool (freshId + p.1) p.2.1 p.2.2) } := by
    unfold tool_node
    rw [hlast]
    simp only [Msg.toolCallsAttr]
    rw [hrs]
  refine ⟨_, hnode, ?_, ?_, ?_⟩
  · rw [List.map_map]
    have h1 : (Msg.toolCallId ∘ fun p : Nat × (String × String) =>
        Msg.tool (freshId + p.1) p.2.1 p.2.2) = (fun p => some p.2.2) := by
      funext p
      rfl
    rw [h1]
    have h2 : (rs.enum.map (fun p : Nat × (String × String) => some p.2.2))
        = rs.map (fun r => some r.2) := by
      have := List.enum_map_snd rs
      calc rs.enum.map (fun p : Nat × (String × String) => some p.2.2)
          = (rs.enum.map Prod.snd).map (fun r => some r.2) := by
            rw [List.map_map]; rfl
        _ = rs.map (fun r => some r.2) := by rw [this]
    rw [h2]
    have h3 : rs.map (fun r => some r.2) = (rs.map Prod.snd).map some := by
      rw [List.map_map]; rfl
    rw [h3, hmap, List.map_map]
    rfl
  · intro m hm
    rw [List.mem_map] at hm
    obtain ⟨p, _, hp⟩ := hm
    rw [← hp]
    rfl
  · intro tc htc
    rw [← List.countP_eq_length_filter]
    have hfac : ∀ m : Msg, (m.toolCallId == some tc.id)
        = ((fun o => o == some tc.id) (Msg.toolCallId m)) := fun m => rfl
    rw [List.countP_eq_length_filter]
    have hcnt : (List.filter (fun m => m.toolCallId == some tc.id)
        ((rs.enum.map (fun p => Msg.tool (freshId + p.1) p.2.1 p.2.2)))).length
        = List.countP (fun o => o == some tc.id)
            ((rs.enum.map (fun p => Msg.tool (freshId + p.1) p.2.1 p.2.2)).map Msg.toolCallId) := by
      rw [List.countP_map, ← List.countP_eq_length_filter]
      rfl
    show (List.filter (fun m => m.toolCallId == some tc.id)
        ((rs.enum.map (fun p => Msg.tool (freshId + p.1) p.2.1 p.2.2)))).length = 1
    rw [hcnt]
    have happ : (rs.enum.map (fun p => Msg.tool (freshId + p.1) p.2.1 p.2.2)).map Msg.toolCallId
        = tcs.map (fun tc => some tc.id) := by
      rw [List.map_map]
      have h1 : (Msg.toolCallId ∘ fun p : Nat × (String × String) =>
          Msg.tool (freshId + p.1) p.2.1 p.2.2) = (fun p => some p.2.2) := by
        funext p; rfl
      rw [h1]
      calc rs.enum.map (fun p : Nat × (String × String) => some p.2.2)
          = (rs.enum.map Prod.snd).map (fun r => some r.2) := by rw [List.map_map]; rfl
        _ = rs.map (fun r => some r.2) := by rw [List.enum_map_snd rs]
        _ = (rs.map Prod.snd).map some := by rw [List.map_map]; rfl
        _ = tcs.map (fun tc => some tc.id) := by rw [hmap, List.map_map]; rfl
    rw [happ, List.countP_map]
    have h4 : ((fun o => o == some tc.id) ∘ (fun tc : ToolCall => some tc.id))
        = (fun tc' : ToolCall => tc'.id == tc.id) := by
      funext tc'
      show (some tc'.id == some tc.id) = (tc'.id == tc.id)
      rfl
    rw [h4]
    have h5 : List.countP (fun tc' : ToolCall => tc'.id == tc.id) tcs
        = List.count tc.id (tcs.map ToolCall.id) := by
      rw [List.count, List.countP_map]
      rfl
    rw [h5]
    exact List.count_eq_one_of_mem hnd (List.mem_map.mpr ⟨tc, htc, rfl⟩)

/-- Concrete state whose last message requests two registered tools. -/
def stTool : AgentState :=
  { messages := [Msg.human 1 "q",
      Msg.ai 2 "" [{ name := "add", args := [("a", "1"), ("b", "2")], id := "c1" },
                   { name := "now_utc", args := [], id := "c2" }]]
    current_user_id := "u", current_user_name := "用户u"
    current_session_id := "s", current_summary := "" }

theorem tool_result_join_integrity_witness :
    ∃ u, tool_node okInvoke 3 stTool = some u ∧
      u.appends.map Msg.toolCallId =
        [{ name := "add", args := [("a", "1"), ("b", "2")], id := "c1" },
         { name := "now_utc", args := [], id := "c2" }].map
          (fun tc : ToolCall => some tc.id) ∧
      (∀ m ∈ u.appends, m.pyType = "tool") ∧
      (∀ tc ∈ ([{ name := "add", args := [("a", "1"), ("b", "2")], id := "c1" },
                { name := "now_utc", args := [], id := "c2" }] : List ToolCall),
        (u.appends.filter (fun m => m.toolCallId == some tc.id)).length = 1) :=
  tool_result_join_integrity okInvoke 3 stTool 2 ""
    [{ name := "add", args := [("a", "1"), ("b", "2")], id := "c1" },
     { name := "now_utc", args := [], id := "c2" }]
    (by decide) (by decide)
    (fun tc _ => ⟨"ok", rfl⟩) (by decide)

theorem step_done_absorbing (env : Env) (c : Config) (h : c.phase = Phase.done) :
    step env c = c := by
  obtain ⟨ph, st, nid⟩ := c
  cases h
  rfl

theorem iterate_done_stable (env : Env) (c : Config) (n : Nat)
    (h : ((step env)^[n] c).phase = Phase.done) :
    ∀ j, (step env)^[n + j] c = (step env)^[n] c := by
  intro j
  induction j with
  | zero => rfl
  | succ k ih =>
    have hadd : n + (k + 1) = (n + k) + 1 := by omega
    rw [hadd, Function.iterate_succ_apply', ih]
    exact step_done_absorbing env _ h

/-- C1: for a fixed deterministic environment, resuming from the
configuration persisted after any step `k` of a turn and running the
remaining steps yields exactly the final configuration of the uninterrupted
run — the resumed run re-enters at the recorded location and performs only
the steps after `k`, never replaying an already-merged one. -/
theorem resume_equivalence (env : Env) (c : Config) (n k m : Nat)
    (hdone : ((step env)^[n] c).phase = Phase.done) (hnm : n ≤ k + m) :
    (step env)^[m] ((step env)^[k] c) = (step env)^[n] c := by
  rw [← Function.iterate_add_apply]
  have h1 : m + k = n + (m + k - n) := by omega
  rw [h1]
  exact iterate_done_stable env c n hdone (m + k - n)

/-- Concrete initial configuration for the engine witnesses: one incoming
user message. -/
def c0W : Config := initConfig [Msg.human 1 "hi"] 2

theorem resume_equivalence_witness :
    ((step envW)^[5] c0W).phase = Phase.done ∧ (5 : Nat) ≤ 2 + 3 ∧
    (step envW)^[3] ((step envW)^[2] c0W) = (step envW)^[5] c0W :=
  ⟨by decide, by decide, resume_equivalence envW c0W 5 2 3 (by decide) (by decide)⟩

theorem llm_call_node_shape (chatGen : List Msg → GenOut) (freshId : Nat)
    (s : AgentState) :
    ∃ ct tcs, llm_call_node chatGen freshId s =
      { NodeUpdate.empty with appends := [Msg.ai freshId ct tcs] } :=
  ⟨_, _, rfl⟩

/-- The last message is an assistant message. -/
def lastIsAI (msgs : List Msg) : Prop :=
  ∃ i ct tcs, msgs.getLast? = some (Msg.ai i ct tcs)

/-- Invariant carried through the turn: at the route location the message
sequence ends in an assistant message; at the invoke location it moreover
ends in an assistant message with a non-empty tool-call list. -/
def routeInvokeInv (c : Config) : Prop :=
  (c.phase = Phase.route → lastIsAI c.state.messages) ∧
  (c.phase = Phase.invoke →
    ∃ i ct tcs, c.state.messages.getLast? = some (Msg.ai i ct tcs) ∧ tcs ≠ [])

theorem routeInvokeInv_of_other (c : Config) (h1 : c.phase ≠ Phase.route)
    (h2 : c.phase ≠ Phase.invoke) : routeInvokeInv c :=
  ⟨fun hp => absurd hp h1, fun hp => absurd hp h2⟩

theorem routeInvokeInv_step (env : Env) (c : Config) (h : routeInvokeInv c) :
    routeInvokeInv (step env c) := by
  obtain ⟨ph, st, nid⟩ := c
  cases ph
  case load =>
    cases hru : runtime_load_node env.thread_id with
    | none =>
      have hstep : step env ⟨Phase.load, st, nid⟩ = ⟨Phase.error, st, nid⟩ := by
        simp [step, hru]
      rw [hstep]
      exact routeInvokeInv_of_other _ (fun hp => nomatch hp) (fun hp => nomatch hp)
    | some u =>
      have hstep : step env ⟨Phase.load, st, nid⟩ =
          ⟨Phase.prune, applyUpdate st u, nid⟩ := by
        simp [step, hru]
      rw [hstep]
      exact routeInvokeInv_of_other _ (fun hp => nomatch hp) (fun hp => nomatch hp)
  case prune =>
    exact routeInvokeInv_of_other _ (fun hp => nomatch hp) (fun hp => nomatch hp)
  case compact =>
    exact routeInvokeInv_of_other _ (fun hp => nomatch hp) (fun hp => nomatch hp)
  case generate =>
    obtain ⟨ct', tcs', hshape⟩ := llm_call_node_shape env.chatGen nid st
    refine ⟨fun _ => ?_, fun hp => nomatch hp⟩
    show lastIsAI (applyUpdate st (llm_call_node env.chatGen nid st)).messages
    rw [hshape]
    refine ⟨nid, ct', tcs', ?_⟩
    show (st.messages.filter _ ++ [Msg.ai nid ct' tcs']).getLast? = _
    rw [List.getLast?_concat]
  case route =>
    cases hsc : should_continue st.messages with
    | none =>
      have hstep : step env ⟨Phase.route, st, nid⟩ = ⟨Phase.error, st, nid⟩ := by
        simp [step, hsc]
      rw [hstep]
      exact routeInvokeInv_of_other _ (fun hp => nomatch hp) (fun hp => nomatch hp)
    | some r =>
      cases r with
      | END =>
        have hstep : step env ⟨Phase.route, st, nid⟩ = ⟨Phase.done, st, nid⟩ := by
          simp [step, hsc]
        rw [hstep]
        exact routeInvokeInv_of_other _ (fun hp => nomatch hp) (fun hp => nomatch hp)
      | tool_node =>
        have hstep : step env ⟨Phase.route, st, nid⟩ = ⟨Phase.invoke, st, nid⟩ := by
          simp [step, hsc]
        rw [hstep]
        refine ⟨(fun hp => nomatch hp), fun hinv => ?_⟩
        unfold should_continue at hsc
        cases hl : st.messages.getLast? with
        | none => rw [hl] at hsc; exact absurd hsc (by simp)
        | some last =>
          rw [hl] at hsc
          cases last with
          | human i ct => simp [Msg.toolCallsAttr] at hsc
          | system i ct => simp [Msg.toolCallsAttr] at hsc
          | tool i ct cid => simp [Msg.toolCallsAttr] at hsc
          | ai i ct tcs =>
            cases tcs with
            | nil => simp [Msg.toolCallsAttr] at hsc
            | cons a l =>
              exact ⟨i, ct, a :: l, rfl, by simp⟩
  case invoke =>
    cases htn : tool_node env.invoke nid st with
    | none =>
      have hstep : step env ⟨Phase.invoke, st, nid⟩ = ⟨Phase.error, st, nid⟩ := by
        simp [step, htn]
      rw [hstep]
      exact routeInvokeInv_of_other _ (fun hp => nomatch hp) (fun hp => nomatch hp)
    | some u =>
      have hstep : step env ⟨Phase.invoke, st, nid⟩ =
          ⟨Phase.generate, applyUpdate st u, nid + u.appends.length⟩ := by
        simp [step, htn]
      rw [hstep]
      exact routeInvokeInv_of_other _ (fun hp => nomatch hp) (fun hp => nomatch hp)
  case done =>
    exact routeInvokeInv_of_other _ (fun hp => nomatch hp) (fun hp => nomatch hp)
  case error =>
    exact routeInvokeInv_of_other _ (fun hp => nomatch hp) (fun hp => nomatch hp)

theorem routeInvokeInv_iterate (env : Env) (c : Config) (h : routeInvokeInv c)
    (n : Nat) : routeInvokeInv ((step env)^[n] c) := by
  induction n with
  | zero => exact h
  | succ k ih =>
    rw [Function.iterate_succ_apply']
    exact routeInvokeInv_step env _ ih

/-- C9: in every configuration a turn reaches, whenever the route decision
executes the message sequence is non-empty and ends in the assistant message
just appended by the generate step (so the accesses to `messages[-1]` and
its `tool_calls` attribute never fault), and whenever the invoke-tool step
executes that last assistant message carries a non-empty tool-call list. -/
theorem route_invoke_safety (env : Env) (msgs : List Msg) (nid n : Nat) :
    (((step env)^[n] (initConfig msgs nid)).phase = Phase.route →
      ((step env)^[n] (initConfig msgs nid)).state.messages ≠ [] ∧
      lastIsAI ((step env)^[n] (initConfig msgs nid)).state.messages) ∧
    (((step env)^[n] (initConfig msgs nid)).phase = Phase.invoke →
      ((step env)^[n] (initConfig msgs nid)).state.messages ≠ [] ∧
      ∃ i ct tcs,
        ((step env)^[n] (initConfig msgs nid)).state.messages.getLast?
          = some (Msg.ai i ct tcs) ∧ tcs ≠ []) := by
  have hinv := routeInvokeInv_iterate env (initConfig msgs nid)
    (routeInvokeInv_of_other _ (fun hp => nomatch hp) (fun hp => nomatch hp)) n
  obtain ⟨h1, h2⟩ := hinv
  constructor
  · intro hp
    obtain ⟨i, ct, tcs, hl⟩ := h1 hp
    refine ⟨?_, ⟨i, ct, tcs, hl⟩⟩
    intro he
    rw [he] at hl
    exact absurd hl (by simp)
  · intro hp
    obtain ⟨i, ct, tcs, hl, hne⟩ := h2 hp
    refine ⟨?_, i, ct, tcs, hl, hne⟩
    intro he
    rw [he] at hl
    exact absurd hl (by simp)

/-- Concrete chat endpoint that requests one `multiply` tool call on the
first round and answers plainly once a tool result is visible. -/
def chatGenW2 : List Msg → GenOut := fun prompt =>
  if prompt.any (fun m => m.pyType == "tool") then
    { content := "84", tool_calls := [] }
  else
    { content := ""
      tool_calls := [{ name := "multiply", args := [("a", "12"), ("b", "7")], id := "c1" }] }

/-- Concrete deterministic environment whose turn takes one tool round. -/
def envW2 : Env :=
  { thread_id := "u-s", countTokens := zeroTokens, chatGen := chatGenW2,
    sumGen := sumGenW, invoke := fun _ _ => Except.ok "84" }

theorem route_invoke_safety_witness :
    (((step envW2)^[4] (initConfig [Msg.human 1 "hi"] 2)).state.messages ≠ [] ∧
      lastIsAI ((step envW2)^[4] (initConfig [Msg.human 1 "hi"] 2)).state.messages) ∧
    (((step envW2)^[5] (initConfig [Msg.human 1 "hi"] 2)).state.messages ≠ [] ∧
      ∃ i ct tcs,
        ((step envW2)^[5] (initConfig [Msg.human 1 "hi"] 2)).state.messages.getLast?
          = some (Msg.ai i ct tcs) ∧ tcs ≠ []) :=
  ⟨(route_invoke_safety envW2 [Msg.human 1 "hi"] 2 4).1 (by decide),
   (route_invoke_safety envW2 [Msg.human 1 "hi"] 2 5).2 (by decide)⟩

/-- Control locations the engine can occupy from the third step of a turn
onwards; the compact location is not among them. -/
def latePhase : Phase → Bool
  | .generate => true
  | .route => true
  | .invoke => true
  | .done => true
  | .error => true
  | _ => false

theorem latePhase_step (env : Env) (c : Config) (h : latePhase c.phase = true) :
    latePhase (step env c).phase = true := by
  obtain ⟨ph, st, nid⟩ := c
  cases ph
  case load => exact absurd h (by simp [latePhase])
  case prune => exact absurd h (by simp [latePhase])
  case compact => exact absurd h (by simp [latePhase])
  case generate => rfl
  case route =>
    cases hsc : should_continue st.messages with
    | none => simp [step, hsc, latePhase]
    | some r => cases r <;> simp [step, hsc, latePhase]
  case invoke =>
    cases htn : tool_node env.invoke nid st with
    | none => simp [step, htn, latePhase]
    | some u => simp [step, htn, latePhase]
  case done => rfl
  case error => rfl

theorem latePhase_after_three (env : Env) (c : Config) (h0 : c.phase = Phase.load) :
    ∀ n, 3 ≤ n → latePhase ((step env)^[n] c).phase = true := by
  intro n hn
  induction n, hn using Nat.le_induction with
  | base =>
    obtain ⟨ph, st, nid⟩ := c
    cases h0
    show latePhase (step env (step env (step env ⟨Phase.load, st, nid⟩))).phase = true
    cases hru : runtime_load_node env.thread_id with
    | none => simp [step, hru, latePhase]
    | some u => simp [step, hru, latePhase]
  | succ k hk ih =>
    rw [Function.iterate_succ_apply']
    exact latePhase_step env _ ih

theorem compact_phase_two (env : Env) (c : Config) (h0 : c.phase = Phase.load)
    (n : Nat) (hc : ((step env)^[n] c).phase = Phase.compact) : n = 2 := by
  match n with
  | 0 =>
    rw [Function.iterate_zero_apply, h0] at hc
    exact nomatch hc
  | 1 =>
    obtain ⟨ph, st, nid⟩ := c
    cases h0
    rw [Function.iterate_one] at hc
    cases hru : runtime_load_node env.thread_id with
    | none => rw [show step env ⟨Phase.load, st, nid⟩ = ⟨Phase.error, st, nid⟩ from
        by simp [step, hru]] at hc; exact nomatch hc
    | some u => rw [show step env ⟨Phase.load, st, nid⟩ =
        ⟨Phase.prune, applyUpdate st u, nid⟩ from by simp [step, hru]] at hc
                exact nomatch hc
  | 2 => rfl
  | (j + 3) =>
    have hl := latePhase_after_three env c h0 (j + 3) (by omega)
    rw [hc] at hl
    exact absurd hl (by simp [latePhase])

theorem runtime_load_summary (tid : String) (u : NodeUpdate)
    (h : runtime_load_node tid = some u) : u.summary = some "" := by
  unfold runtime_load_node at h
  cases hsp : pySplitDash tid with
  | nil => rw [hsp] at h; exact nomatch h
  | cons a t =>
    cases t with
    | nil => rw [hsp] at h; exact nomatch h
    | cons b t' =>
      rw [hsp] at h
      have := Option.some.inj h
      rw [← this]

/-- C10: within a single turn the compact-context step runs exactly once
(two steps after the load), at which point the summary is the empty string
reset by `runtime_load_node`; hence the prior-summary branch is unreachable
and a triggered compaction always builds the create-fresh instruction, never
the extend-existing-summary one. -/
theorem compaction_always_fresh (env : Env) (c : Config) (h0 : c.phase = Phase.load)
    (n : Nat) (hc : ((step env)^[n] c).phase = Phase.compact) :
    n = 2 ∧ ((step env)^[n] c).state.current_summary = "" ∧
    summaryInstruction (((step env)^[n] c).state.current_summary) =
      "Create a summary of the conversation above:" := by
  have hn2 : n = 2 := compact_phase_two env c h0 n hc
  subst hn2
  obtain ⟨ph, st, nid⟩ := c
  cases h0
  have hit : ((step env)^[2] (⟨Phase.load, st, nid⟩ : Config)) =
      step env (step env ⟨Phase.load, st, nid⟩) := rfl
  cases hru : runtime_load_node env.thread_id with
  | none =>
    exfalso
    rw [hit, show step env ⟨Phase.load, st, nid⟩ = ⟨Phase.error, st, nid⟩ from
      by simp [step, hru]] at hc
    rw [show step env ⟨Phase.error, st, nid⟩ = ⟨Phase.error, st, nid⟩ from rfl] at hc
    exact nomatch hc
  | some u =>
    have h1 : step env ⟨Phase.load, st, nid⟩ = ⟨Phase.prune, applyUpdate st u, nid⟩ := by
      simp [step, hru]
    have h2 : step env ⟨Phase.prune, applyUpdate st u, nid⟩ =
        ⟨Phase.compact,
         applyUpdate (applyUpdate st u) (delete_tool_message_node (applyUpdate st u)),
         nid⟩ := rfl
    have hsum : (applyUpdate (applyUpdate st u)
        (delete_tool_message_node (applyUpdate st u))).current_summary = "" := by
      show ((delete_tool_message_node (applyUpdate st u)).summary).getD
        (applyUpdate st u).current_summary = ""
      have hd : (delete_tool_message_node (applyUpdate st u)).summary = none := rfl
      rw [hd]
      show (applyUpdate st u).current_summary = ""
      show u.summary.getD st.current_summary = ""
      rw [runtime_load_summary env.thread_id u hru]
      rfl
    refine ⟨rfl, ?_, ?_⟩
    · rw [hit, h1, h2]
      exact hsum
    · rw [hit, h1, h2]
      rw [show (⟨Phase.compact,
         applyUpdate (applyUpdate st u) (delete_tool_message_node (applyUpdate st u)),
         nid⟩ : Config).state.current_summary =
         (applyUpdate (applyUpdate st u)
           (delete_tool_message_node (applyUpdate st u))).current_summary from rfl]
      rw [hsum]
      rfl

theorem compaction_always_fresh_witness :
    ((step envW)^[2] c0W).phase = Phase.compact ∧
    ((2 : Nat) = 2 ∧ ((step envW)^[2] c0W).state.current_summary = "" ∧
     summaryInstruction (((step envW)^[2] c0W).state.current_summary) =
       "Create a summary of the conversation above:") :=
  ⟨by decide, compaction_always_fresh envW c0W rfl 2 (by decide)⟩
